import Mathlib

/-!
Verification of the rule-reconciliation engine in `src/moat/src/access_rules.rs`.

Strings are embedded as `List Char`; Rust `&str` operations (`trim`,
`contains`, `split`) are modelled on lists.  Machine integers are `Nat`
with explicit `% 2^w` where overflow matters.  The standard-library
address parsers (`Ipv4Addr::from_str`, `Ipv6Addr::from_str`,
`str::parse::<u8>`) are external to the repository and are modelled here
at the level of detail the repository code depends on.
-/

namespace Moat

abbrev Str := List Char
abbrev Rule := Nat × Nat
abbrev RuleSet := List Rule

/-- Model of Rust `char::is_whitespace` restricted to the ASCII whitespace
that can appear in configuration entries. -/
def isWS (c : Char) : Bool := c.isWhitespace

/-- Model of Rust `str::trim`: drop whitespace from both ends. -/
def trim (l : Str) : Str :=
  ((l.dropWhile isWS).reverse.dropWhile isWS).reverse

/-- Model of Rust `str::contains(char)`. -/
def hasChar (l : Str) (c : Char) : Bool := decide (c ∈ l)

/-- Model of Rust `str::split(char)` collected into a list: the separators
are removed and the (possibly empty) fragments between them are returned;
the result always has `count sep + 1` fragments. -/
def splitOnChar (sep : Char) : Str → List Str
  | [] => [[]]
  | c :: rest =>
    match splitOnChar sep rest with
    | [] => [[]]
    | h :: t => if c = sep then [] :: h :: t else (c :: h) :: t

/-- Model of Rust `str::parse::<u8>`: an optional leading `+`, then one or
more decimal digits, value at most 255. -/
def parseU8 (l : Str) : Option Nat :=
  let digits := match l with
    | '+' :: rest => rest
    | _ => l
  if digits = [] then none
  else if digits.all Char.isDigit then
    let n := digits.foldl (fun a c => a * 10 + (c.toNat - 48)) 0
    if n ≤ 255 then some n else none
  else none

/-- Model of one decimal octet as accepted by Rust `Ipv4Addr::from_str`:
digits only, no leading zero (except `"0"` itself), value at most 255. -/
def parseOctet (l : Str) : Option Nat :=
  match l with
  | [] => none
  | ['0'] => some 0
  | c :: _ =>
    if c = '0' then none
    else if l.all Char.isDigit then
      let n := l.foldl (fun a ch => a * 10 + (ch.toNat - 48)) 0
      if n ≤ 255 then some n else none
    else none

/-- Model of Rust `Ipv4Addr::from_str`: exactly four octets separated by
dots; result is the 32-bit big-endian value as a `Nat`. -/
def ipv4FromStr (l : Str) : Option Nat :=
  match splitOnChar '.' l with
  | [a, b, c, d] =>
    match parseOctet a, parseOctet b, parseOctet c, parseOctet d with
    | some va, some vb, some vc, some vd =>
      some (((va * 256 + vb) * 256 + vc) * 256 + vd)
    | _, _, _, _ => none
  | _ => none

def isHexDigitCh (c : Char) : Bool :=
  c.isDigit || ('a' ≤ c && c ≤ 'f') || ('A' ≤ c && c ≤ 'F')

def hexVal (c : Char) : Nat :=
  if c.isDigit then c.toNat - 48
  else if 'a' ≤ c && c ≤ 'f' then c.toNat - 87
  else c.toNat - 55

/-- One 16-bit group of an IPv6 address: one to four hex digits. -/
def parseHexGroup (l : Str) : Option Nat :=
  if l = [] then none
  else if decide (4 < l.length) then none
  else if l.all isHexDigitCh then
    some (l.foldl (fun a c => a * 16 + hexVal c) 0)
  else none

/-- Split at the first occurrence of two adjacent colons, returning the
text before and after it; `none` when no `::` occurs. -/
def splitDoubleColon : Str → Option (Str × Str)
  | [] => none
  | a :: rest =>
    match rest with
    | [] => none
    | b :: rest2 =>
      if a = ':' ∧ b = ':' then some ([], rest2)
      else (splitDoubleColon rest).map (fun p => (a :: p.1, p.2))

/-- Parse every fragment as a hex group, failing if any fragment fails. -/
def parseGroups : List Str → Option (List Nat)
  | [] => some []
  | g :: gs =>
    match parseHexGroup g, parseGroups gs with
    | some v, some vs => some (v :: vs)
    | _, _ => none

/-- Combine 16-bit groups big-endian into one `Nat`. -/
def groupsVal (gs : List Nat) : Nat :=
  gs.foldl (fun a v => a * 65536 + v) 0

/-- Model of Rust `Ipv6Addr::from_str` for colon-hex forms: eight hex
groups, or fewer with a single `::` eliding at least one zero group.
(The embedded trailing-IPv4 form `::ffff:1.2.3.4` also accepted by Rust
is not modelled; no entry relevant to the claims uses it.) -/
def ipv6FromStr (l : Str) : Option Nat :=
  match splitDoubleColon l with
  | none =>
    match parseGroups (splitOnChar ':' l) with
    | some gs => if gs.length = 8 then some (groupsVal gs) else none
    | none => none
  | some (bef, aft) =>
    if (splitDoubleColon aft).isSome then none
    else
      match (if bef = [] then some [] else parseGroups (splitOnChar ':' bef)),
            (if aft = [] then some [] else parseGroups (splitOnChar ':' aft)) with
      | some f, some b =>
        if f.length + b.length ≤ 7 then
          some (groupsVal (f ++ List.replicate (8 - f.length - b.length) 0 ++ b))
        else none
      | _, _ => none

/-- Model of Rust `u32::checked_shl`: `none` when the shift amount is 32
or more, otherwise the left shift truncated to 32 bits. -/
def checked_shl (x n : Nat) : Option Nat :=
  if n < 32 then some ((x <<< n) % 4294967296) else none

def u32Max : Nat := 4294967295

/-- The mask computation of `parse_ipv4_ip_or_cidr` (access_rules.rs
lines 103-107): zero for prefix 0, else `u32::MAX.checked_shl(32 - prefix)`
with an `unwrap_or(0)` fallback. -/
def mask32 (p : Nat) : Nat :=
  if p = 0 then 0 else (checked_shl u32Max (32 - p)).getD 0

/-- The slash branch of `parse_ipv4_ip_or_cidr` (lines 91-109): parse the
address and the prefix, reject prefixes above 32, and mask the address. -/
def parse_ipv4_cidr_parts (ipStr pfxStr : Str) : Option Rule :=
  match ipv4FromStr (trim ipStr) with
  | none => none
  | some ip =>
    match parseU8 (trim pfxStr) with
    | none => none
    | some p =>
      if p > 32 then none
      else some (Nat.land ip (mask32 p), p)

/-- Model of `parse_ipv4_ip_or_cidr` (access_rules.rs lines 78-110). -/
def parse_ipv4_ip_or_cidr (entry : Str) : Option Rule :=
  let s := trim entry
  if s = [] then none
  else if hasChar s ':' then none
  else if !(hasChar s '/') then (ipv4FromStr s).map (fun ip => (ip, 32))
  else
    match splitOnChar '/' s with
    | [ipStr, pfxStr] => parse_ipv4_cidr_parts ipStr pfxStr
    | _ => none

/-- Model of `parse_ipv6_ip_or_cidr` (access_rules.rs lines 113-138).
Note: unlike the IPv4 parser, the source applies no mask to the parsed
address in the CIDR branch (line 137 returns `(ip, prefix)` as parsed). -/
def parse_ipv6_ip_or_cidr (entry : Str) : Option Rule :=
  let s := trim entry
  if s = [] then none
  else if !(hasChar s ':') then none
  else if !(hasChar s '/') then (ipv6FromStr s).map (fun ip => (ip, 128))
  else
    match splitOnChar '/' s with
    | [ipStr, pfxStr] =>
      match ipv6FromStr (trim ipStr) with
      | none => none
      | some ip =>
        match parseU8 (trim pfxStr) with
        | none => none
        | some p => if p > 128 then none else some (ip, p)
    | _ => none

/-- The family dispatch used for every entry in `apply_rules_to_skel`
(lines 146-162 and the analogous loops): strings containing `:` go to the
IPv6 parser, all others to the IPv4 parser. -/
inductive Fam | v4 | v6
deriving DecidableEq

def normalizeEntry (s : Str) : Option (Fam × Rule) :=
  if hasChar s ':' then (parse_ipv6_ip_or_cidr s).map (fun r => (Fam.v6, r))
  else (parse_ipv4_ip_or_cidr s).map (fun r => (Fam.v4, r))

/-- The mask whose top `p` bits (of 32) are set, as the specification
words it: this is the spec-side definition to compare `mask32` against. -/
def specMask32 (p : Nat) : Nat := (2 ^ p - 1) * 2 ^ (32 - p)

/-- The mask whose top `p` bits (of 128) are set (spec-side definition
for the IPv6 masking rule). -/
def specMask128 (p : Nat) : Nat := (2 ^ p - 1) * 2 ^ (128 - p)

/-- `HashSet::insert`: duplicates collapse silently. -/
def insertRule (s : RuleSet) (r : Rule) : RuleSet :=
  if r ∈ s then s else s ++ [r]

/-- `HashSet` equality (`*previous_rules_guard != current_rules` at lines
215-216 compares as sets): mutual containment. -/
def memberEq (a b : RuleSet) : Bool :=
  a.all (fun r => decide (r ∈ b)) && b.all (fun r => decide (r ∈ a))

/-- `HashSet::difference`: the elements of `a` that are not in `b`. -/
def setDifference (a b : RuleSet) : RuleSet :=
  a.filter (fun r => !(decide (r ∈ b)))

inductive FwOp | ban | unban
deriving DecidableEq

/-- One call issued against the `MOATFirewall` abstraction:
`ban_ip`/`unban_ip` (v4) or `ban_ipv6`/`unban_ipv6` (v6), keyed by
network and prefix length. -/
structure Call where
  fam : Fam
  op : FwOp
  net : Nat
  plen : Nat
deriving DecidableEq

/-- The cross-cycle state: previous rules for IPv4 and for IPv6
(`previous_rules`, `previous_rules_v6`). -/
structure RecState where
  v4 : RuleSet
  v6 : RuleSet
deriving DecidableEq

/-- The calls issued for one changed family (lines 228-240 and 247-259):
one unban per element of `previous \ current`, then one ban per element
of `current \ previous`. -/
def diffCalls (fam : Fam) (prev cur : RuleSet) : List Call :=
  (setDifference prev cur).map (fun r => Call.mk fam FwOp.unban r.1 r.2)
    ++ (setDifference cur prev).map (fun r => Call.mk fam FwOp.ban r.1 r.2)

/-- The diff-and-apply tail of `apply_rules_to_skel` (lines 210-263).
`fw` is the firewall oracle: the outcome of each call (`true` = Ok).  A
failed call is logged and skipped, so the outcome never influences which
later calls are made; the returned trace pairs every issued call with
its outcome, and the returned state is the updated previous-rules pair. -/
def applyRules (fw : Call → Bool) (prev : RecState) (cur4 cur6 : RuleSet) :
    List (Call × Bool) × RecState :=
  let ipv4_changed := !(memberEq prev.v4 cur4)
  let ipv6_changed := !(memberEq prev.v6 cur6)
  if !ipv4_changed && !ipv6_changed then ([], prev)
  else
    let r4 : List Call × RuleSet :=
      if ipv4_changed then (diffCalls Fam.v4 prev.v4 cur4, cur4)
      else ([], prev.v4)
    let r6 : List Call × RuleSet :=
      if ipv6_changed then (diffCalls Fam.v6 prev.v6 cur6, cur6)
      else ([], prev.v6)
    ((r4.1 ++ r6.1).map (fun c => (c, fw c)), RecState.mk r4.2 r6.2)

/-- The calls a run of `applyRules` issues, in order. -/
def issuedCalls (fw : Call → Bool) (prev : RecState) (cur4 cur6 : RuleSet) :
    List Call :=
  ((applyRules fw prev cur4 cur6).1).map Prod.fst

/-- The `access_rules.block` section of the fetched `ConfigApiResponse`:
a flat IP list, a list of country-code maps, and a list of ASN maps. -/
structure BlockRules where
  ips : List Str
  country : List (List (Str × List Str))
  asn : List (List (Str × List Str))

/-- Insert one raw entry into the pair of current rule sets, dispatching
on colon presence exactly as the three parsing loops do (lines 146-208);
a rejected entry is logged and skipped. -/
def insertEntry (acc : RuleSet × RuleSet) (s : Str) : RuleSet × RuleSet :=
  if hasChar s ':' then
    match parse_ipv6_ip_or_cidr s with
    | some r => (acc.1, insertRule acc.2 r)
    | none => acc
  else
    match parse_ipv4_ip_or_cidr s with
    | some r => (insertRule acc.1 r, acc.2)
    | none => acc

/-- The flattening phase of `apply_rules_to_skel` (lines 140-208): fold
`block.ips`, then every list under `block.country`, then every list
under `block.asn` into fresh v4/v6 rule sets. -/
def flattenRules (b : BlockRules) : RuleSet × RuleSet :=
  let acc1 := b.ips.foldl insertEntry (([] : RuleSet), ([] : RuleSet))
  let acc2 := b.country.foldl
    (fun a m => m.foldl (fun a2 kv => kv.2.foldl insertEntry a2) a) acc1
  b.asn.foldl
    (fun a m => m.foldl (fun a2 kv => kv.2.foldl insertEntry a2) a) acc2

/-- Model of `apply_rules_to_skel` (lines 72-266): flatten the fetched
rules and diff-and-apply them against the previous state. -/
def apply_rules_to_skel (fw : Call → Bool) (resp : BlockRules)
    (prev : RecState) : List (Call × Bool) × RecState :=
  let cur := flattenRules resp
  applyRules fw prev cur.1 cur.2

/-- Model of `fetch_and_apply` (lines 58-70).  `fetched` is the outcome
of the external `config::fetch_config` (`none` = error, in which case the
`?` operator returns early); `hasSkel` mirrors the `Option<&Arc<...>>`
skeleton argument.  Result: (issued calls with outcomes, new state,
cycle succeeded). -/
def fetch_and_apply (fw : Call → Bool) (fetched : Option BlockRules)
    (hasSkel : Bool) (prev : RecState) :
    List (Call × Bool) × RecState × Bool :=
  match fetched with
  | none => ([], prev, false)
  | some resp =>
    if hasSkel then
      let r := apply_rules_to_skel fw resp prev
      (r.1, r.2, true)
    else ([], prev, true)

/-! ### Helper lemmas -/

theorem mem_setDifference {a b : RuleSet} {r : Rule} :
    r ∈ setDifference a b ↔ r ∈ a ∧ r ∉ b := by
  simp [setDifference, List.mem_filter]

theorem of_memberEq {a b : RuleSet} (h : memberEq a b = true) (r : Rule) :
    r ∈ a ↔ r ∈ b := by
  simp only [memberEq, Bool.and_eq_true, List.all_eq_true,
    decide_eq_true_eq] at h
  exact ⟨fun hr => h.1 r hr, fun hr => h.2 r hr⟩

theorem memberEq_symm {a b : RuleSet} (h : memberEq a b = true) :
    memberEq b a = true := by
  simp only [memberEq, Bool.and_eq_true] at h ⊢
  exact ⟨h.2, h.1⟩

theorem setDifference_eq_nil {a b : RuleSet} (h : memberEq a b = true) :
    setDifference a b = [] := by
  unfold setDifference
  rw [List.filter_eq_nil_iff]
  intro r hr
  simpa using (of_memberEq h r).1 hr

theorem issuedCalls_normal (fw : Call → Bool) (prev : RecState)
    (cur4 cur6 : RuleSet) :
    issuedCalls fw prev cur4 cur6 =
      (if memberEq prev.v4 cur4 then [] else diffCalls Fam.v4 prev.v4 cur4)
        ++ (if memberEq prev.v6 cur6 then []
            else diffCalls Fam.v6 prev.v6 cur6) := by
  unfold issuedCalls applyRules
  cases h4 : memberEq prev.v4 cur4 <;> cases h6 : memberEq prev.v6 cur6 <;>
    simp [h4, h6, List.map_map, Function.comp_def]

theorem applyRules_state (fw : Call → Bool) (prev : RecState)
    (cur4 cur6 : RuleSet) :
    (applyRules fw prev cur4 cur6).2 =
      RecState.mk (if memberEq prev.v4 cur4 then prev.v4 else cur4)
        (if memberEq prev.v6 cur6 then prev.v6 else cur6) := by
  unfold applyRules
  cases h4 : memberEq prev.v4 cur4 <;> cases h6 : memberEq prev.v6 cur6 <;>
    simp [h4, h6]

theorem count_dropWhile (p : Char → Bool) (a : Char) (hp : p a = false)
    (l : Str) : (l.dropWhile p).count a = l.count a := by
  induction l with
  | nil => rfl
  | cons c rest ih =>
    by_cases hc : p c
    · rw [List.dropWhile_cons_of_pos hc, ih, List.count_cons]
      have : (c == a) = false := by
        refine beq_eq_false_iff_ne.mpr ?_
        intro hca
        rw [hca] at hc
        rw [hp] at hc
        exact Bool.false_ne_true hc
      simp [this]
    · rw [List.dropWhile_cons_of_neg hc]

theorem count_trim (a : Char) (ha : isWS a = false) (l : Str) :
    (trim l).count a = l.count a := by
  unfold trim
  rw [List.count_reverse, count_dropWhile _ _ ha, List.count_reverse,
    count_dropWhile _ _ ha]

theorem mem_of_mem_trim {a : Char} {l : Str} (h : a ∈ trim l) : a ∈ l := by
  unfold trim at h
  rw [List.mem_reverse] at h
  have h1 := List.dropWhile_sublist (l := (l.dropWhile isWS).reverse) (p := isWS)
  have h2 : a ∈ (l.dropWhile isWS).reverse := h1.mem h
  rw [List.mem_reverse] at h2
  exact (List.dropWhile_sublist (l := l) (p := isWS)).mem h2

theorem mem_trim_of_mem {a : Char} {l : Str} (ha : isWS a = false)
    (h : a ∈ l) : a ∈ trim l := by
  rw [← List.count_pos_iff] at h ⊢
  rwa [count_trim a ha]

theorem length_splitOnChar (sep : Char) (l : Str) :
    (splitOnChar sep l).length = l.count sep + 1 := by
  induction l with
  | nil => rfl
  | cons c rest ih =>
    unfold splitOnChar
    cases hsp : splitOnChar sep rest with
    | nil => rw [hsp] at ih; simp at ih
    | cons h t =>
      rw [hsp] at ih
      by_cases hc : c = sep
      · subst hc
        simp only [if_pos rfl, List.count_cons, List.length_cons]
        simp only [List.length_cons] at ih
        simp [ih]
      · have : (sep == c) = false := by
          refine beq_eq_false_iff_ne.mpr ?_
          exact fun hh => hc hh.symm
        simp only [if_neg hc, List.count_cons, List.length_cons]
        simp only [List.length_cons] at ih
        simp [ih, this, hc]

theorem mask32_eq_specMask32 {p : Nat} (hp : p ≤ 32) :
    mask32 p = specMask32 p := by
  have h : ∀ q < 33, mask32 q = specMask32 q := by decide
  exact h p (by omega)

theorem fam_of_mem_diffCalls {x : Call} {f : Fam} {p c : RuleSet}
    (h : x ∈ diffCalls f p c) : x.fam = f := by
  rcases List.mem_append.mp h with h' | h' <;>
    rcases List.mem_map.mp h' with ⟨r, _, rfl⟩ <;> rfl

theorem mem_diffCalls_unban {f : Fam} {p c : RuleSet} {n l : Nat} :
    Call.mk f FwOp.unban n l ∈ diffCalls f p c ↔ (n, l) ∈ setDifference p c := by
  unfold diffCalls
  rw [List.mem_append]
  constructor
  · rintro (h | h) <;> rcases List.mem_map.mp h with ⟨r, hr, heq⟩
    · obtain ⟨-, -, h1, h2⟩ := Call.mk.injEq _ _ _ _ _ _ _ _ ▸ heq
      cases heq
      exact hr
    · cases heq
  · intro h
    exact Or.inl (List.mem_map.mpr ⟨(n, l), h, rfl⟩)

theorem mem_diffCalls_ban {f : Fam} {p c : RuleSet} {n l : Nat} :
    Call.mk f FwOp.ban n l ∈ diffCalls f p c ↔ (n, l) ∈ setDifference c p := by
  unfold diffCalls
  rw [List.mem_append]
  constructor
  · rintro (h | h) <;> rcases List.mem_map.mp h with ⟨r, hr, heq⟩
    · cases heq
    · cases heq
      exact hr
  · intro h
    exact Or.inr (List.mem_map.mpr ⟨(n, l), h, rfl⟩)

theorem notMem_diffCalls_of_fam {x : Call} {f : Fam} {p c : RuleSet}
    (hf : x.fam ≠ f) : x ∉ diffCalls f p c :=
  fun h => hf (fam_of_mem_diffCalls h)

/-! ### Claim theorems -/

/-- C5: if the policy fetch fails, the cycle performs no diff and no
apply work — no firewall call is issued, the returned state equals the
previous state for both families, and the cycle reports the error. -/
theorem fetch_failure_no_mutation (fw : Call → Bool) (hasSkel : Bool)
    (prev : RecState) :
    fetch_and_apply fw none hasSkel prev = ([], prev, false) := rfl

/-- C1 (evaluation of the code at the failing input): the IPv6 parser
accepts `2001:db8::1/64` but returns the parsed address with its host
bits intact — the result is not equal to the address masked to the top
64 bits, contradicting the specified canonical form `(2001:db8::, 64)`. -/
theorem ipv6_parse_keeps_host_bits :
    parse_ipv6_ip_or_cidr ("2001:db8::1/64".toList)
      = some (42540766411282592856903984951653826561, 64)
  ∧ Nat.land 42540766411282592856903984951653826561 (specMask128 64)
      ≠ 42540766411282592856903984951653826561 := by
  constructor
  · decide
  · decide

/-- C10: for every accepted prefix in 1..32 the shift amount `32 - p` is
at most 31, `u32::MAX.checked_shl(32 - p)` returns `some` (so the
`unwrap_or(0)` fallback is unreachable and `mask32` equals the intended
mask), and the resulting mask has exactly the top `p` bits of 32 set. -/
theorem ipv4_mask_shl_safe (p : Nat) (h1 : 1 ≤ p) (h2 : p ≤ 32) :
    32 - p ≤ 31
  ∧ checked_shl u32Max (32 - p) = some (specMask32 p)
  ∧ mask32 p = specMask32 p
  ∧ (∀ i : Nat, Nat.testBit (specMask32 p) i = true ↔ (32 - p ≤ i ∧ i < 32)) := by
  refine ⟨by omega, ?_, mask32_eq_specMask32 h2, ?_⟩
  · have h : ∀ q < 32, checked_shl u32Max q = some (specMask32 (32 - q)) := by
      decide
    have h' := h (32 - p) (by omega)
    rwa [show 32 - (32 - p) = p from by omega] at h'
  · intro i
    by_cases hi : i < 32
    · have h : ∀ q < 33, ∀ j < 32,
          Nat.testBit (specMask32 q) j = decide (32 - q ≤ j) := by decide
      rw [h p (by omega) i hi]
      constructor
      · intro hd
        exact ⟨of_decide_eq_true hd, hi⟩
      · intro hj
        exact decide_eq_true hj.1
    · constructor
      · intro hbit
        exfalso
        have hlt : specMask32 p < 2 ^ 32 := by
          have h : ∀ q < 33, specMask32 q < 4294967296 := by decide
          exact h p (by omega)
        have hle : (2 : Nat) ^ 32 ≤ 2 ^ i :=
          Nat.pow_le_pow_right (by omega) (by omega)
        rw [Nat.testBit_lt_two_pow (Nat.lt_of_lt_of_le hlt hle)] at hbit
        exact Bool.false_ne_true hbit
      · intro hj
        omega

/-- C10 witness: instantiated at prefix 24. -/
theorem ipv4_mask_shl_safe_witness :
    (1 ≤ 24 ∧ 24 ≤ 32)
  ∧ (32 - 24 ≤ 31
      ∧ checked_shl u32Max (32 - 24) = some (specMask32 24)
      ∧ mask32 24 = specMask32 24
      ∧ (∀ i : Nat, Nat.testBit (specMask32 24) i = true ↔ (32 - 24 ≤ i ∧ i < 32))) :=
  ⟨by decide, ipv4_mask_shl_safe 24 (by decide) (by decide)⟩

/-- C3: in the accepted `address/prefix` form, the IPv4 parser returns
the parsed address bitwise-ANDed with the mask whose top `prefix` bits
(of 32) are set (prefix 0 yielding mask 0), and the two concrete
normalizations from the spec hold. -/
theorem ipv4_masking_correct :
    (∀ ipStr pfxStr : Str, ∀ a net p : Nat,
        ipv4FromStr (trim ipStr) = some a →
        parse_ipv4_cidr_parts ipStr pfxStr = some (net, p) →
        p ≤ 32 ∧ net = Nat.land a (specMask32 p))
  ∧ specMask32 0 = 0
  ∧ parse_ipv4_ip_or_cidr ("10.0.0.5/24".toList) = some (167772160, 24)
  ∧ parse_ipv4_ip_or_cidr ("10.0.0.5".toList) = some (167772165, 32) := by
  refine ⟨?_, by decide, by decide, by decide⟩
  intro ipStr pfxStr a net p ha hp
  unfold parse_ipv4_cidr_parts at hp
  rw [ha] at hp
  cases hu : parseU8 (trim pfxStr) with
  | none => rw [hu] at hp; cases hp
  | some q =>
    rw [hu] at hp
    by_cases hq : q > 32
    · simp [hq] at hp
    · simp only [if_neg hq, Option.some.injEq, Prod.mk.injEq] at hp
      obtain ⟨hnet, hpq⟩ := hp
      subst hpq
      refine ⟨by omega, ?_⟩
      rw [← hnet, mask32_eq_specMask32 (by omega)]

/-- C3 witness: instantiated at `10.0.0.5/24`. -/
theorem ipv4_masking_correct_witness :
    24 ≤ 32 ∧ 167772160 = Nat.land 167772165 (specMask32 24) :=
  ipv4_masking_correct.1 ("10.0.0.5".toList) ("24".toList) 167772165 167772160 24
    (by decide) (by decide)

/-- C4: the list of calls issued by one run of the apply phase does not
depend on which individual calls fail (the batch is never aborted), each
issued call is executed with its outcome recorded, and after the batch a
changed family's stored previous rule set is replaced wholesale by the
current set regardless of the failure pattern. -/
theorem partial_failure_resilient (fw fwOther : Call → Bool)
    (prev : RecState) (cur4 cur6 : RuleSet) :
    issuedCalls fw prev cur4 cur6 = issuedCalls fwOther prev cur4 cur6
  ∧ (applyRules fw prev cur4 cur6).1
      = (issuedCalls fw prev cur4 cur6).map (fun c => (c, fw c))
  ∧ (memberEq prev.v4 cur4 = false → (applyRules fw prev cur4 cur6).2.v4 = cur4)
  ∧ (memberEq prev.v6 cur6 = false → (applyRules fw prev cur4 cur6).2.v6 = cur6) := by
  refine ⟨by rw [issuedCalls_normal, issuedCalls_normal], ?_, ?_, ?_⟩
  · unfold issuedCalls applyRules
    cases h4 : memberEq prev.v4 cur4 <;> cases h6 : memberEq prev.v6 cur6 <;>
      simp [h4, h6, List.map_map, Function.comp_def]
  · intro h
    rw [applyRules_state]
    simp [h]
  · intro h
    rw [applyRules_state]
    simp [h]

/-- C4 witness: a one-element v4 batch whose single ban call fails under
the all-failing oracle still issues the same calls as under the
all-succeeding oracle, and the v4 baseline still advances. -/
theorem partial_failure_resilient_witness :
    issuedCalls (fun _ => false) (RecState.mk [] []) [(1, 32)] []
      = issuedCalls (fun _ => true) (RecState.mk [] []) [(1, 32)] []
  ∧ memberEq (RecState.mk [] []).v4 [(1, 32)] = false
  ∧ (applyRules (fun _ => false) (RecState.mk [] []) [(1, 32)] []).2.v4 = [(1, 32)] :=
  ⟨(partial_failure_resilient (fun _ => false) (fun _ => true)
      (RecState.mk [] []) [(1, 32)] []).1,
   by decide,
   (partial_failure_resilient (fun _ => false) (fun _ => true)
      (RecState.mk [] []) [(1, 32)] []).2.2.1 (by decide)⟩

/-- C7: when the IPv4 side changed but the IPv6 side is unchanged, every
issued call is an IPv4 call (no IPv6 ban or unban is issued) and the
stored previous IPv6 rule set is not modified; and symmetrically. -/
theorem family_change_isolated (fw : Call → Bool) (prev : RecState)
    (cur4 cur6 : RuleSet) :
    (memberEq prev.v4 cur4 = false → memberEq prev.v6 cur6 = true →
      (∀ x ∈ issuedCalls fw prev cur4 cur6, x.fam = Fam.v4)
      ∧ (applyRules fw prev cur4 cur6).2.v6 = prev.v6)
  ∧ (memberEq prev.v6 cur6 = false → memberEq prev.v4 cur4 = true →
      (∀ x ∈ issuedCalls fw prev cur4 cur6, x.fam = Fam.v6)
      ∧ (applyRules fw prev cur4 cur6).2.v4 = prev.v4) := by
  constructor
  · intro h4 h6
    constructor
    · intro x hx
      rw [issuedCalls_normal] at hx
      simp only [h4, h6, if_true, if_false, Bool.false_eq_true,
        List.append_nil] at hx
      exact fam_of_mem_diffCalls hx
    · rw [applyRules_state]
      simp [h6]
  · intro h6 h4
    constructor
    · intro x hx
      rw [issuedCalls_normal] at hx
      simp only [h4, h6, if_true, if_false, Bool.false_eq_true,
        List.nil_append] at hx
      exact fam_of_mem_diffCalls hx
    · rw [applyRules_state]
      simp [h4]

theorem mem_issuedCalls_v4_unban (fw : Call → Bool) (prev : RecState)
    (cur4 cur6 : RuleSet) (n l : Nat) :
    Call.mk Fam.v4 FwOp.unban n l ∈ issuedCalls fw prev cur4 cur6 ↔
      (n, l) ∈ prev.v4 ∧ (n, l) ∉ cur4 := by
  rw [issuedCalls_normal, List.mem_append]
  have hv6 : Call.mk Fam.v4 FwOp.unban n l ∉
      (if memberEq prev.v6 cur6 then [] else diffCalls Fam.v6 prev.v6 cur6) := by
    by_cases h6 : memberEq prev.v6 cur6
    · simp [h6]
    · simp only [h6, Bool.false_eq_true, if_false]
      exact notMem_diffCalls_of_fam (by simp)
  by_cases h4 : memberEq prev.v4 cur4
  · rw [← mem_setDifference, setDifference_eq_nil h4]
    simp [h4, hv6]
  · rw [← mem_setDifference]
    simp only [h4, Bool.false_eq_true, if_false]
    rw [mem_diffCalls_unban (f := Fam.v4)]
    exact ⟨fun h => h.resolve_right hv6, Or.inl⟩

theorem mem_issuedCalls_v4_ban (fw : Call → Bool) (prev : RecState)
    (cur4 cur6 : RuleSet) (n l : Nat) :
    Call.mk Fam.v4 FwOp.ban n l ∈ issuedCalls fw prev cur4 cur6 ↔
      (n, l) ∈ cur4 ∧ (n, l) ∉ prev.v4 := by
  rw [issuedCalls_normal, List.mem_append]
  have hv6 : Call.mk Fam.v4 FwOp.ban n l ∉
      (if memberEq prev.v6 cur6 then [] else diffCalls Fam.v6 prev.v6 cur6) := by
    by_cases h6 : memberEq prev.v6 cur6
    · simp [h6]
    · simp only [h6, Bool.false_eq_true, if_false]
      exact notMem_diffCalls_of_fam (by simp)
  by_cases h4 : memberEq prev.v4 cur4
  · rw [← mem_setDifference, setDifference_eq_nil (memberEq_symm h4)]
    simp [h4, hv6]
  · rw [← mem_setDifference]
    simp only [h4, Bool.false_eq_true, if_false]
    rw [mem_diffCalls_ban (f := Fam.v4)]
    exact ⟨fun h => h.resolve_right hv6, Or.inl⟩

theorem mem_issuedCalls_v6_unban (fw : Call → Bool) (prev : RecState)
    (cur4 cur6 : RuleSet) (n l : Nat) :
    Call.mk Fam.v6 FwOp.unban n l ∈ issuedCalls fw prev cur4 cur6 ↔
      (n, l) ∈ prev.v6 ∧ (n, l) ∉ cur6 := by
  rw [issuedCalls_normal, List.mem_append]
  have hv4 : Call.mk Fam.v6 FwOp.unban n l ∉
      (if memberEq prev.v4 cur4 then [] else diffCalls Fam.v4 prev.v4 cur4) := by
    by_cases h4 : memberEq prev.v4 cur4
    · simp [h4]
    · simp only [h4, Bool.false_eq_true, if_false]
      exact notMem_diffCalls_of_fam (by simp)
  by_cases h6 : memberEq prev.v6 cur6
  · rw [← mem_setDifference, setDifference_eq_nil h6]
    simp [h6, hv4]
  · rw [← mem_setDifference]
    simp only [h6, Bool.false_eq_true, if_false]
    rw [mem_diffCalls_unban (f := Fam.v6)]
    exact ⟨fun h => h.resolve_left hv4, Or.inr⟩

theorem mem_issuedCalls_v6_ban (fw : Call → Bool) (prev : RecState)
    (cur4 cur6 : RuleSet) (n l : Nat) :
    Call.mk Fam.v6 FwOp.ban n l ∈ issuedCalls fw prev cur4 cur6 ↔
      (n, l) ∈ cur6 ∧ (n, l) ∉ prev.v6 := by
  rw [issuedCalls_normal, List.mem_append]
  have hv4 : Call.mk Fam.v6 FwOp.ban n l ∉
      (if memberEq prev.v4 cur4 then [] else diffCalls Fam.v4 prev.v4 cur4) := by
    by_cases h4 : memberEq prev.v4 cur4
    · simp [h4]
    · simp only [h4, Bool.false_eq_true, if_false]
      exact notMem_diffCalls_of_fam (by simp)
  by_cases h6 : memberEq prev.v6 cur6
  · rw [← mem_setDifference, setDifference_eq_nil (memberEq_symm h6)]
    simp [h6, hv4]
  · rw [← mem_setDifference]
    simp only [h6, Bool.false_eq_true, if_false]
    rw [mem_diffCalls_ban (f := Fam.v6)]
    exact ⟨fun h => h.resolve_left hv4, Or.inr⟩

/-- C2: the unban calls issued for a family are exactly the entries of
`previous \ current`, the ban calls exactly `current \ previous` (for
both families), and when previous equals current for both families no
call is issued and the stored previous state is returned unchanged. -/
theorem diff_correct (fw : Call → Bool) (prev : RecState)
    (cur4 cur6 : RuleSet) :
    (∀ n l : Nat, Call.mk Fam.v4 FwOp.unban n l ∈ issuedCalls fw prev cur4 cur6
        ↔ (n, l) ∈ prev.v4 ∧ (n, l) ∉ cur4)
  ∧ (∀ n l : Nat, Call.mk Fam.v4 FwOp.ban n l ∈ issuedCalls fw prev cur4 cur6
        ↔ (n, l) ∈ cur4 ∧ (n, l) ∉ prev.v4)
  ∧ (∀ n l : Nat, Call.mk Fam.v6 FwOp.unban n l ∈ issuedCalls fw prev cur4 cur6
        ↔ (n, l) ∈ prev.v6 ∧ (n, l) ∉ cur6)
  ∧ (∀ n l : Nat, Call.mk Fam.v6 FwOp.ban n l ∈ issuedCalls fw prev cur4 cur6
        ↔ (n, l) ∈ cur6 ∧ (n, l) ∉ prev.v6)
  ∧ (memberEq prev.v4 cur4 = true → memberEq prev.v6 cur6 = true →
      applyRules fw prev cur4 cur6 = ([], prev)) :=
  ⟨mem_issuedCalls_v4_unban fw prev cur4 cur6,
   mem_issuedCalls_v4_ban fw prev cur4 cur6,
   mem_issuedCalls_v6_unban fw prev cur4 cur6,
   mem_issuedCalls_v6_ban fw prev cur4 cur6,
   fun h4 h6 => by unfold applyRules; simp [h4, h6]⟩

/-- C2 witness: with previous = {(1,32)} and current = {(2,32)} on v4,
the unban of (1,32) and the ban of (2,32) are both issued; with equal
states on both families, nothing is issued and the state is unchanged. -/
theorem diff_correct_witness :
    (Call.mk Fam.v4 FwOp.unban 1 32
        ∈ issuedCalls (fun _ => true) (RecState.mk [(1, 32)] []) [(2, 32)] []
      ↔ ((1, 32) ∈ [((1 : Nat), (32 : Nat))] ∧ ((1 : Nat), (32 : Nat)) ∉ [((2 : Nat), (32 : Nat))]))
  ∧ applyRules (fun _ => true) (RecState.mk [(1, 32)] []) [(1, 32)] []
      = ([], RecState.mk [(1, 32)] []) :=
  ⟨(diff_correct (fun _ => true) (RecState.mk [(1, 32)] []) [(2, 32)] []).1 1 32,
   (diff_correct (fun _ => true) (RecState.mk [(1, 32)] []) [(1, 32)] []).2.2.2.2
     (by decide) (by decide)⟩

/-- Ordering invariant on issued calls: an earlier ban is never followed
by a later unban of the same family. -/
def noBanThenUnban (a b : Call) : Prop :=
  a.fam = b.fam → a.op = FwOp.ban → b.op = FwOp.unban → False

theorem diffCalls_pairwise (f : Fam) (p c : RuleSet) :
    (diffCalls f p c).Pairwise noBanThenUnban := by
  unfold diffCalls
  rw [List.pairwise_append]
  refine ⟨List.pairwise_of_forall_mem_list ?_,
    List.pairwise_of_forall_mem_list ?_, ?_⟩
  · intro a ha b hb
    rcases List.mem_map.mp ha with ⟨r, -, rfl⟩
    intro _ hban _
    simp at hban
  · intro a ha b hb
    rcases List.mem_map.mp hb with ⟨r, -, rfl⟩
    intro _ _ hunban
    simp at hunban
  · intro a ha b hb
    rcases List.mem_map.mp ha with ⟨r, -, rfl⟩
    intro _ hban _
    simp at hban

theorem issuedCalls_pairwise (fw : Call → Bool) (prev : RecState)
    (cur4 cur6 : RuleSet) :
    (issuedCalls fw prev cur4 cur6).Pairwise noBanThenUnban := by
  rw [issuedCalls_normal, List.pairwise_append]
  refine ⟨?_, ?_, ?_⟩
  · by_cases h4 : memberEq prev.v4 cur4 <;> simp [h4, diffCalls_pairwise]
  · by_cases h6 : memberEq prev.v6 cur6 <;> simp [h6, diffCalls_pairwise]
  · intro a ha b hb
    by_cases h4 : memberEq prev.v4 cur4
    · rw [if_pos h4] at ha
      cases ha
    · by_cases h6 : memberEq prev.v6 cur6
      · rw [if_pos h6] at hb
        cases hb
      · rw [if_neg h4] at ha
        rw [if_neg h6] at hb
        have hfa := fam_of_mem_diffCalls ha
        have hfb := fam_of_mem_diffCalls hb
        intro hfam _ _
        rw [hfa, hfb] at hfam
        simp at hfam

/-- C6: within the batch of calls issued by one apply run, an unban call
and a ban call of the same family always occur with the unban strictly
earlier; removals are issued before additions per family. -/
theorem unban_before_ban (fw : Call → Bool) (prev : RecState)
    (cur4 cur6 : RuleSet) (i j : Nat)
    (hi : i < (issuedCalls fw prev cur4 cur6).length)
    (hj : j < (issuedCalls fw prev cur4 cur6).length)
    (hfam : ((issuedCalls fw prev cur4 cur6).get ⟨i, hi⟩).fam
          = ((issuedCalls fw prev cur4 cur6).get ⟨j, hj⟩).fam)
    (hopi : ((issuedCalls fw prev cur4 cur6).get ⟨i, hi⟩).op = FwOp.unban)
    (hopj : ((issuedCalls fw prev cur4 cur6).get ⟨j, hj⟩).op = FwOp.ban) :
    i < j := by
  have hpw := issuedCalls_pairwise fw prev cur4 cur6
  rw [List.pairwise_iff_getElem] at hpw
  rcases Nat.lt_trichotomy i j with h | h | h
  · exact h
  · exfalso
    subst h
    have he : (issuedCalls fw prev cur4 cur6).get ⟨i, hi⟩
        = (issuedCalls fw prev cur4 cur6).get ⟨i, hj⟩ := rfl
    rw [← he, hopi] at hopj
    simp at hopj
  · exfalso
    refine hpw j i hj hi h ?_ ?_ ?_
    · rw [List.get_eq_getElem] at hfam
      rw [List.get_eq_getElem] at hfam
      exact hfam.symm
    · rw [List.get_eq_getElem] at hopj
      exact hopj
    · rw [List.get_eq_getElem] at hopi
      exact hopi

/-- C6 witness: with to_remove = {(1,32)} and to_add = {(2,32)} on v4,
the unban is at index 0 and the ban at index 1, and 0 < 1. -/
theorem unban_before_ban_witness :
    (issuedCalls (fun _ => true) (RecState.mk [(1, 32)] []) [(2, 32)] []).length = 2
  ∧ (0 : Nat) < 1 :=
  ⟨by decide,
   unban_before_ban (fun _ => true) (RecState.mk [(1, 32)] []) [(2, 32)] [] 0 1
     (by decide) (by decide) (by decide) (by decide) (by decide)⟩

/-- C7 witness: an IPv4-only change leaves the IPv6 state untouched. -/
theorem family_change_isolated_witness :
    memberEq (RecState.mk [] [(7, 128)]).v4 [(1, 32)] = false
  ∧ memberEq (RecState.mk [] [(7, 128)]).v6 [(7, 128)] = true
  ∧ (applyRules (fun _ => true) (RecState.mk [] [(7, 128)]) [(1, 32)] [(7, 128)]).2.v6
      = [(7, 128)] :=
  ⟨by decide, by decide,
   ((family_change_isolated (fun _ => true) (RecState.mk [] [(7, 128)])
      [(1, 32)] [(7, 128)]).1 (by decide) (by decide)).2⟩

/-- C9: a string containing a colon is always rejected by the IPv4
parser, and a string containing no colon is always rejected by the IPv6
parser. -/
theorem family_isolation (s : Str) :
    (':' ∈ s → parse_ipv4_ip_or_cidr s = none)
  ∧ (':' ∉ s → parse_ipv6_ip_or_cidr s = none) := by
  constructor
  · intro h
    unfold parse_ipv4_ip_or_cidr
    by_cases ht : trim s = []
    · simp [ht]
    · have hc : hasChar (trim s) ':' = true :=
        decide_eq_true (mem_trim_of_mem (by decide) h)
      simp [ht, hc]
  · intro h
    unfold parse_ipv6_ip_or_cidr
    by_cases ht : trim s = []
    · simp [ht]
    · have hc : hasChar (trim s) ':' = false := by
        refine decide_eq_false ?_
        intro hmem
        exact h (mem_of_mem_trim hmem)
      simp [ht, hc]

/-- C9 witness: the IPv6 literal `::1` is rejected by the IPv4 parser
and the IPv4 literal `1.2.3.4` is rejected by the IPv6 parser. -/
theorem family_isolation_witness :
    parse_ipv4_ip_or_cidr ("::1".toList) = none
  ∧ parse_ipv6_ip_or_cidr ("1.2.3.4".toList) = none :=
  ⟨(family_isolation ("::1".toList)).1 (by decide),
   (family_isolation ("1.2.3.4".toList)).2 (by decide)⟩

/-- C8: the five spec rejection inputs all normalize to `none` (a
recoverable reject, not an error), and any input with more than one `/`
is rejected by both parsers. -/
theorem rejection_set :
    normalizeEntry ("".toList) = none
  ∧ normalizeEntry ("not-an-ip".toList) = none
  ∧ normalizeEntry ("10.0.0.1/33".toList) = none
  ∧ normalizeEntry ("10.0.0.1/abc".toList) = none
  ∧ normalizeEntry ("2001:db8::1/200".toList) = none
  ∧ (∀ s : Str, 2 ≤ s.count '/' →
      parse_ipv4_ip_or_cidr s = none ∧ parse_ipv6_ip_or_cidr s = none) := by
  refine ⟨by decide, by decide, by decide, by decide, by decide, ?_⟩
  intro s hs
  have hcount : 2 ≤ (trim s).count '/' := by
    rw [count_trim '/' (by decide)]
    exact hs
  have hlen : 3 ≤ (splitOnChar '/' (trim s)).length := by
    rw [length_splitOnChar]
    omega
  have hmem : '/' ∈ trim s := by
    rw [← List.count_pos_iff]
    omega
  have hslash : hasChar (trim s) '/' = true := decide_eq_true hmem
  have ht : ¬ trim s = [] := by
    intro h0
    rw [h0] at hmem
    cases hmem
  rcases hsp : splitOnChar '/' (trim s) with - | ⟨a, - | ⟨b, - | ⟨c, t⟩⟩⟩
  · rw [hsp] at hlen
    simp at hlen
  · rw [hsp] at hlen
    simp at hlen
  · rw [hsp] at hlen
    simp at hlen
  · constructor
    · unfold parse_ipv4_ip_or_cidr
      by_cases hc : hasChar (trim s) ':'
      · simp [ht, hc]
      · simp [ht, hc, hslash, hsp]
    · unfold parse_ipv6_ip_or_cidr
      by_cases hc : hasChar (trim s) ':'
      · simp [ht, hc, hslash, hsp]
      · simp [ht, hc]

/-- C8 witness for the universal part: `1/2/3` has two slashes and both
parsers reject it. -/
theorem rejection_set_witness :
    2 ≤ ("1/2/3".toList).count '/'
  ∧ parse_ipv4_ip_or_cidr ("1/2/3".toList) = none
  ∧ parse_ipv6_ip_or_cidr ("1/2/3".toList) = none :=
  ⟨by decide,
   (rejection_set.2.2.2.2.2 ("1/2/3".toList) (by decide)).1,
   (rejection_set.2.2.2.2.2 ("1/2/3".toList) (by decide)).2⟩

end Moat
